import Mathlib

/-!
# Verification of `sim-lidar-rs`

A shallow embedding of the `sim-lidar-rs` repository: the TypeScript host
layer (`ts/src/worker.ts`, `ts/src/index.ts`, the `SimLidar`/`LidarClient`
classes and the Three.js adapter `extractGeometry`) is translated directly
from the source.  The Rust ray-cast core (`src/bvh.rs`, `src/sensor.rs`,
`src/raycaster.rs`) is not part of the repository snapshot; where a claim
depends on it, the core is modelled from the specification (see the
definitions whose doc comments start with `Modelled from the spec:`).

Scalars are modelled by `ℚ`: the code's IEEE-754 arithmetic is treated as
exact arithmetic, which is the reading the specification itself uses when it
states geometric guarantees.
-/

namespace SimLidarRs

/-- Modelled from the spec: 3-vector of finite floats (spec §3, `Vec3`);
the Rust core's vector type is absent from the snapshot. -/
structure Vec3 where
  x : ℚ
  y : ℚ
  z : ℚ
deriving DecidableEq

/-- Componentwise subtraction of 3-vectors. -/
def vsub (a b : Vec3) : Vec3 := ⟨a.x - b.x, a.y - b.y, a.z - b.z⟩

/-- Cross product of 3-vectors. -/
def cross (a b : Vec3) : Vec3 :=
  ⟨a.y * b.z - a.z * b.y, a.z * b.x - a.x * b.z, a.x * b.y - a.y * b.x⟩

/-- Dot product of 3-vectors. -/
def dot (a b : Vec3) : ℚ := a.x * b.x + a.y * b.y + a.z * b.z

/-- A triangle given by its three vertex positions. -/
structure Triangle where
  v0 : Vec3
  v1 : Vec3
  v2 : Vec3
deriving DecidableEq

/-- Intersection epsilon `ε_t = 1e-6` (spec §4.3). -/
def epsT : ℚ := 1 / 1000000

/-- Barycentric epsilon `ε_b = 1e-6` (spec §4.3). -/
def epsB : ℚ := 1 / 1000000

/-- Determinant rejection threshold `1e-8` (spec §4.3). -/
def epsDet : ℚ := 1 / 100000000

/-- Modelled from the spec: the Möller–Trumbore ray/triangle test of the
absent Rust core (spec §4.3).  Double-sided; rejects near-parallel
configurations with `|det| < 1e-8`; reports a hit when `t > ε_t`,
`u ≥ -ε_b`, `v ≥ -ε_b` and `u + v ≤ 1 + ε_b`. -/
def mollerTrumbore (orig dir : Vec3) (tri : Triangle) : Option ℚ :=
  let e1 := vsub tri.v1 tri.v0
  let e2 := vsub tri.v2 tri.v0
  let pv := cross dir e2
  let det := dot e1 pv
  if |det| < epsDet then none
  else
    let invDet := det⁻¹
    let tv := vsub orig tri.v0
    let u := dot tv pv * invDet
    let qv := cross tv e1
    let v := dot dir qv * invDet
    let t := dot e2 qv * invDet
    if -epsB ≤ u ∧ -epsB ≤ v ∧ u + v ≤ 1 + epsB ∧ epsT < t then some t
    else none

/-- The candidate hit a traversal considers for the triangle at permutation
position `p.1`: its Möller–Trumbore intersection when that lies in
`(ε_t, t_max]`. -/
def rayCand (orig dir : Vec3) (tMax : ℚ) (p : ℕ × Triangle) : Option (ℕ × ℚ) :=
  match mollerTrumbore orig dir p.2 with
  | some t => if t ≤ tMax then some (p.1, t) else none
  | none => none

/-- All triangles whose intersection with the ray satisfies
`t ∈ (ε_t, t_max]`, listed with their permutation positions in
permutation order. -/
def validHits (tris : List Triangle) (orig dir : Vec3) (tMax : ℚ) : List (ℕ × ℚ) :=
  tris.enum.filterMap (rayCand orig dir tMax)

/-- One step of the traversal's best-hit update: the current best is
replaced only on a strict improvement of `t` (spec §4.3, "update
`current_best_t` monotonically on any improvement"), so ties keep the
earlier triangle in permutation order. -/
def chooseBetter (best : Option (ℕ × ℚ)) (c : ℕ × ℚ) : Option (ℕ × ℚ) :=
  match best with
  | none => some c
  | some b => if c.2 < b.2 then some c else some b

/-- Modelled from the spec: the closest-hit ray query of the absent Rust
core (spec §4.3).  The BVH traversal is specified to return exactly the
minimum over all triangles, so it is modelled as the straightforward scan
of every triangle in permutation order, keeping the best `t`. -/
def closestHit (tris : List Triangle) (orig dir : Vec3) (tMax : ℚ) : Option (ℕ × ℚ) :=
  (validHits tris orig dir tMax).foldl chooseBetter none

/-- Running minimum of a list of candidate hits, seeded with `b`. -/
def minWith (b : ℕ × ℚ) : List (ℕ × ℚ) → ℕ × ℚ
  | [] => b
  | c :: l => minWith (if c.2 < b.2 then c else b) l

theorem foldl_chooseBetter_some (b : ℕ × ℚ) (l : List (ℕ × ℚ)) :
    l.foldl chooseBetter (some b) = some (minWith b l) := by
  induction l generalizing b with
  | nil => rfl
  | cons c l ih =>
    simp only [List.foldl_cons, chooseBetter, minWith]
    by_cases h : c.2 < b.2 <;> simp [h, ih]

theorem minWith_cons (b c : ℕ × ℚ) (l : List (ℕ × ℚ)) :
    minWith b (c :: l) = minWith (if c.2 < b.2 then c else b) l := rfl

theorem minWith_mem (b : ℕ × ℚ) (l : List (ℕ × ℚ)) :
    minWith b l = b ∨ minWith b l ∈ l := by
  induction l generalizing b with
  | nil => exact Or.inl rfl
  | cons c l ih =>
    rw [minWith_cons]
    by_cases h : c.2 < b.2
    · rw [if_pos h]
      rcases ih c with h' | h'
      · exact Or.inr (by rw [h']; exact List.mem_cons_self c l)
      · exact Or.inr (List.mem_cons_of_mem c h')
    · rw [if_neg h]
      rcases ih b with h' | h'
      · exact Or.inl h'
      · exact Or.inr (List.mem_cons_of_mem c h')

theorem minWith_le (b : ℕ × ℚ) (l : List (ℕ × ℚ)) :
    (minWith b l).2 ≤ b.2 ∧ ∀ c ∈ l, (minWith b l).2 ≤ c.2 := by
  induction l generalizing b with
  | nil => exact ⟨le_refl _, by simp⟩
  | cons c l ih =>
    rw [minWith_cons]
    by_cases h : c.2 < b.2
    · rw [if_pos h]
      refine ⟨le_trans (ih c).1 (le_of_lt h), ?_⟩
      intro d hd
      rcases List.mem_cons.mp hd with rfl | hd
      · exact (ih _).1
      · exact (ih _).2 d hd
    · rw [if_neg h]
      refine ⟨(ih b).1, ?_⟩
      intro d hd
      rcases List.mem_cons.mp hd with rfl | hd
      · exact le_trans (ih b).1 (not_lt.mp h)
      · exact (ih b).2 d hd

theorem minWith_first (b : ℕ × ℚ) (l : List (ℕ × ℚ)) (hne : minWith b l ≠ b) :
    ∃ l₁ l₂, l = l₁ ++ minWith b l :: l₂ ∧
      (∀ d ∈ l₁, (minWith b l).2 < d.2) ∧ (minWith b l).2 < b.2 := by
  induction l generalizing b with
  | nil => exact absurd rfl hne
  | cons c l ih =>
    rw [minWith_cons] at hne ⊢
    by_cases h : c.2 < b.2
    · rw [if_pos h] at hne ⊢
      by_cases hc : minWith c l = c
      · refine ⟨[], l, ?_, by simp, ?_⟩
        · rw [hc, List.nil_append]
        · rw [hc]; exact h
      · obtain ⟨l₁, l₂, heq, hlt, hltc⟩ := ih c hc
        refine ⟨c :: l₁, l₂, by rw [List.cons_append, ← heq], ?_, lt_trans hltc h⟩
        intro d hd
        rcases List.mem_cons.mp hd with rfl | hd
        · exact hltc
        · exact hlt d hd
    · rw [if_neg h] at hne ⊢
      obtain ⟨l₁, l₂, heq, hlt, hltb⟩ := ih b hne
      refine ⟨c :: l₁, l₂, by rw [List.cons_append, ← heq], ?_, hltb⟩
      intro d hd
      rcases List.mem_cons.mp hd with rfl | hd
      · exact lt_of_lt_of_le hltb (not_lt.mp h)
      · exact hlt d hd

/-- The permutation positions recorded in `validHits` are strictly
increasing. -/
theorem validHits_pairwise (tris : List Triangle) (orig dir : Vec3) (tMax : ℚ) :
    (validHits tris orig dir tMax).Pairwise (fun a b => a.1 < b.1) := by
  have henum : tris.enum.Pairwise (fun a b => a.1 < b.1) := by
    have h := List.pairwise_lt_range tris.length
    rw [← List.enum_map_fst tris, List.pairwise_map] at h
    exact h
  refine List.Pairwise.filterMap (f := rayCand orig dir tMax) ?_ henum
  intro a b hab x hx y hy
  unfold rayCand at hx hy
  rcases hmt : mollerTrumbore orig dir a.2 with _ | t <;> rw [hmt] at hx
  · exact absurd hx (by simp)
  rcases hmt' : mollerTrumbore orig dir b.2 with _ | t' <;> rw [hmt'] at hy
  · exact absurd hy (by simp)
  by_cases h1 : t ≤ tMax <;> by_cases h2 : t' ≤ tMax <;>
    simp [h1, h2] at hx hy
  rw [← hx, ← hy]
  exact hab

theorem closestHit_none_iff (tris : List Triangle) (orig dir : Vec3) (tMax : ℚ) :
    closestHit tris orig dir tMax = none ↔ validHits tris orig dir tMax = [] := by
  unfold closestHit
  rcases h : validHits tris orig dir tMax with _ | ⟨c, l⟩
  · simp
  · simp [chooseBetter, foldl_chooseBetter_some]

/-- C1: For every ray query (origin, direction, `t_max`), the closest-hit
query returns the minimum `t` over all triangles whose intersection
satisfies `t ∈ (ε_t, t_max]` — never a farther triangle and never a
spurious miss — with ties between triangles of equal `t` broken by
triangle-permutation order (the smallest permutation position wins). -/
theorem closestHit_is_closest (tris : List Triangle) (orig dir : Vec3) (tMax : ℚ) :
    (closestHit tris orig dir tMax = none ↔ validHits tris orig dir tMax = []) ∧
    ∀ i t, closestHit tris orig dir tMax = some (i, t) →
      (i, t) ∈ validHits tris orig dir tMax ∧
      (∀ j u, (j, u) ∈ validHits tris orig dir tMax → t ≤ u) ∧
      (∀ j u, (j, u) ∈ validHits tris orig dir tMax → u = t → i ≤ j) := by
  refine ⟨closestHit_none_iff tris orig dir tMax, ?_⟩
  intro i t h
  have hpw := validHits_pairwise tris orig dir tMax
  rcases hl : validHits tris orig dir tMax with _ | ⟨c, l⟩
  · rw [closestHit, hl] at h
    exact absurd h (by simp)
  rw [closestHit, hl, List.foldl_cons] at h
  have hstep : chooseBetter none c = some c := rfl
  rw [hstep, foldl_chooseBetter_some] at h
  have hm : minWith c l = (i, t) := by injection h
  rw [hl] at hpw
  refine ⟨?_, ?_, ?_⟩
  · rcases minWith_mem c l with he | he
    · rw [hm] at he
      rw [← he]
      exact List.mem_cons_self _ _
    · rw [hm] at he
      exact List.mem_cons_of_mem c he
  · intro j u hu
    have hle := minWith_le c l
    rw [hm] at hle
    rcases List.mem_cons.mp hu with huc | hul
    · have : u = c.2 := by rw [← huc]
      rw [this]
      exact hle.1
    · exact hle.2 (j, u) hul
  · intro j u hu hut
    by_cases hec : minWith c l = c
    · have hci : c = (i, t) := by rw [← hm, hec]
      rcases List.mem_cons.mp hu with huc | hul
      · have : j = i := by rw [hci] at huc; exact congrArg Prod.fst huc
        exact le_of_eq this.symm
      · have := (List.pairwise_cons.mp hpw).1 (j, u) hul
        rw [hci] at this
        exact le_of_lt this
    · obtain ⟨l₁, l₂, heq, hlt, hltc⟩ := minWith_first c l hec
      rw [hm] at heq hlt hltc
      rcases List.mem_cons.mp hu with huc | hul
      · exfalso
        have huc2 : u = c.2 := by rw [← huc]
        rw [← huc2, hut] at hltc
        exact absurd hltc (by simp)
      · rw [heq] at hul
        rcases List.mem_append.mp hul with h1 | h2
        · have := hlt (j, u) h1
          rw [hut] at this
          exact absurd this (lt_irrefl t)
        · rcases List.mem_cons.mp h2 with hit | h2
          · exact le_of_eq (congrArg Prod.fst hit).symm
          · rw [heq] at hpw
            have hpw' := (List.pairwise_cons.mp hpw).2
            have hpw2 := (List.pairwise_append.mp hpw').2.1
            have := (List.pairwise_cons.mp hpw2).1 (j, u) h2
            exact le_of_lt this

/-- A concrete scene for witnesses: one triangle in the plane `z = 2` and
one in the plane `z = 3`, both crossed by the ray from the origin along
`+z`. -/
def demoTriNear : Triangle := ⟨⟨-1, -1, 2⟩, ⟨1, -1, 2⟩, ⟨0, 1, 2⟩⟩

/-- The farther demo triangle, in the plane `z = 3`. -/
def demoTriFar : Triangle := ⟨⟨-1, -1, 3⟩, ⟨1, -1, 3⟩, ⟨0, 1, 3⟩⟩

/-- The demo scene: near triangle first in permutation order. -/
def demoTris : List Triangle := [demoTriNear, demoTriFar]

theorem demo_mt_near : mollerTrumbore ⟨0, 0, 0⟩ ⟨0, 0, 1⟩ demoTriNear = some 2 := by
  norm_num [demoTriNear, mollerTrumbore, vsub, cross, dot, epsDet, epsB, epsT]

theorem demo_mt_far : mollerTrumbore ⟨0, 0, 0⟩ ⟨0, 0, 1⟩ demoTriFar = some 3 := by
  norm_num [demoTriFar, mollerTrumbore, vsub, cross, dot, epsDet, epsB, epsT]

theorem demo_rayCand_near : rayCand ⟨0, 0, 0⟩ ⟨0, 0, 1⟩ 10 (0, demoTriNear) = some (0, 2) := by
  unfold rayCand
  rw [show mollerTrumbore ⟨0, 0, 0⟩ ⟨0, 0, 1⟩ (0, demoTriNear).2 = some 2 from demo_mt_near]
  norm_num

theorem demo_rayCand_far : rayCand ⟨0, 0, 0⟩ ⟨0, 0, 1⟩ 10 (1, demoTriFar) = some (1, 3) := by
  unfold rayCand
  rw [show mollerTrumbore ⟨0, 0, 0⟩ ⟨0, 0, 1⟩ (1, demoTriFar).2 = some 3 from demo_mt_far]
  norm_num

theorem demo_validHits : validHits demoTris ⟨0, 0, 0⟩ ⟨0, 0, 1⟩ 10 = [(0, 2), (1, 3)] := by
  have he : demoTris.enum = [(0, demoTriNear), (1, demoTriFar)] := rfl
  rw [validHits, he]
  rw [List.filterMap_cons, demo_rayCand_near, List.filterMap_cons, demo_rayCand_far,
    List.filterMap_nil]

theorem demo_closestHit : closestHit demoTris ⟨0, 0, 0⟩ ⟨0, 0, 1⟩ 10 = some (0, 2) := by
  rw [closestHit, demo_validHits]
  norm_num [List.foldl, chooseBetter]

/-- Witness for C1: on the demo scene the query returns the near triangle
at `t = 2`, that hit is a valid hit, and `2` is minimal among all valid
`t` values. -/
theorem closestHit_is_closest_witness :
    (0, 2) ∈ validHits demoTris ⟨0, 0, 0⟩ ⟨0, 0, 1⟩ 10 ∧
    ∀ j u, (j, u) ∈ validHits demoTris ⟨0, 0, 0⟩ ⟨0, 0, 1⟩ 10 → (2 : ℚ) ≤ u :=
  ⟨((closestHit_is_closest demoTris ⟨0, 0, 0⟩ ⟨0, 0, 1⟩ 10).2 0 2 demo_closestHit).1,
   ((closestHit_is_closest demoTris ⟨0, 0, 0⟩ ⟨0, 0, 1⟩ 10).2 0 2 demo_closestHit).2.1⟩

/-! ## Worker layer (`ts/src/worker.ts`)

The Web Worker owns at most one Wasm simulator.  Its message handler is
translated below; the Wasm `Simulator` itself is modelled from the spec
(§4.4–§4.6) because the Rust core is absent from the snapshot.  Two
abstractions are documented on the definitions: the trigonometric ray
directions of §4.4 enter as an explicit list parameter, and the scan is
modelled at `noise_stddev = 0` (Gaussian noise is real-valued randomness
with no shallow embedding). -/

/-- Quaternion `(x, y, z, w)`; identity is `(0, 0, 0, 1)` (spec §3). -/
structure Quat where
  x : ℚ
  y : ℚ
  z : ℚ
  w : ℚ
deriving DecidableEq

/-- Rotation of a vector by a quaternion, by the spec's formula
`v' = v + 2w(q×v) + 2(q×(q×v))` (spec §3). -/
def rotateByQuat (q : Quat) (v : Vec3) : Vec3 :=
  let qv : Vec3 := ⟨q.x, q.y, q.z⟩
  let c1 := cross qv v
  let c2 := cross qv c1
  ⟨v.x + 2 * q.w * c1.x + 2 * c2.x,
   v.y + 2 * q.w * c1.y + 2 * c2.y,
   v.z + 2 * q.w * c1.z + 2 * c2.z⟩

/-- Sensor configuration, fields as in `ts/src/types.ts`. -/
structure SensorConfig where
  horizontalResolution : ℚ
  verticalChannels : ℚ
  verticalFovUpper : ℚ
  verticalFovLower : ℚ
  minRange : ℚ
  maxRange : ℚ
  noiseStddev : ℚ
deriving DecidableEq

/-- Modelled from the spec: the Wasm simulator state (spec §4.6) — a
config and, once `load_geometry` has run, a triangle store.  The BVH is
not carried separately: §4.3 specifies the traversal extensionally and
`closestHit` realises it. -/
structure Sim where
  config : SensorConfig
  geometry : Option (List Triangle)
deriving DecidableEq

/-- Modelled from the spec: the triangle store built by `load_geometry`
(spec §4.1) — indices are grouped in threes and resolved against the flat
vertex buffer.  Validation is not modelled; no claim settled here depends
on `InvalidGeometry`. -/
def toTriangles (vs : List ℚ) (is : List ℕ) : List Triangle :=
  (List.range (is.length / 3)).map fun k =>
    let vertexAt : ℕ → Vec3 := fun j =>
      ⟨vs.getD (3 * j) 0, vs.getD (3 * j + 1) 0, vs.getD (3 * j + 2) 0⟩
    ⟨vertexAt (is.getD (3 * k) 0), vertexAt (is.getD (3 * k + 1) 0),
     vertexAt (is.getD (3 * k + 2) 0)⟩

/-- Modelled from the spec: the scan driver (spec §4.5) at
`noise_stddev = 0`, over an explicit list of local ray directions
(spec §4.4's trigonometric enumeration abstracted as the `dirs`
parameter).  Each direction is rotated by the pose quaternion, queried
against the scene with `t_max = max_range`, range-gated, and the hit
point `p + t·dir` retained. -/
def scanPoints (tris : List Triangle) (origin : Vec3) (q : Quat)
    (minR maxR : ℚ) (dirs : List Vec3) : List Vec3 :=
  dirs.filterMap fun dLocal =>
    let d := rotateByQuat q dLocal
    match closestHit tris origin d maxR with
    | some (_, t) =>
        if t < minR then none
        else some ⟨origin.x + t * d.x, origin.y + t * d.y, origin.z + t * d.z⟩
    | none => none

/-- Modelled from the spec: `Simulator.perform_scan` (spec §4.5/§4.6) —
an empty buffer before geometry is loaded, otherwise the hit points
written as three consecutive floats each. -/
def performScan (sim : Sim) (origin : Vec3) (q : Quat) (dirs : List Vec3) : List ℚ :=
  match sim.geometry with
  | none => []
  | some tris =>
      (scanPoints tris origin q sim.config.minRange sim.config.maxRange dirs).flatMap
        fun p => [p.x, p.y, p.z]

/-- Sensor pose: position plus optional rotation (`ts/src/types.ts`). -/
structure Pose where
  position : Vec3
  rotation : Option Quat
deriving DecidableEq

/-- Worker state: whether the Wasm module is loaded and the simulator
instance currently owned (`wasm` and `simulator` in `ts/src/worker.ts`). -/
structure WorkerState where
  wasmLoaded : Bool
  simulator : Option Sim
deriving DecidableEq

/-- Messages sent to the worker (`ts/src/worker.ts` header comment). -/
inductive WorkerMsg where
  | init (config : SensorConfig) (vertices : Option (List ℚ)) (indices : Option (List ℕ))
  | updateEnvironment (vertices : List ℚ) (indices : List ℕ) (id : Option String)
  | scanMsg (pose : Pose) (id : Option String)
  | setConfig (config : SensorConfig)
  | destroy
deriving DecidableEq

/-- Messages posted from the worker (`ts/src/worker.ts` header comment).
`scanReply` carries `hitCount = hits.length / 3` as the JavaScript number
the worker computes, hence a rational. -/
inductive WorkerReply where
  | ready
  | environmentUpdated (id : Option String)
  | scanReply (hits : List ℚ) (hitCount : ℚ) (id : Option String)
  | destroyed
  | error (message : String)
deriving DecidableEq

/-- `freeSimulator` from `ts/src/worker.ts`: frees the Wasm instance if
one is owned and nulls the reference.  The boolean records whether
`Simulator.free()` was actually invoked. -/
def freeSimulator (s : WorkerState) : WorkerState × Bool :=
  match s.simulator with
  | some _ => ({ s with simulator := none }, true)
  | none => (s, false)

/-- The worker's message handler (`ts/src/worker.ts` lines 59–132),
parameterised by the local ray directions `dirs` used by the modelled
scan.  A thrown `"Simulator not initialised"` is caught by the handler's
`catch` and posted as an error reply. -/
def handleMessage (dirs : List Vec3) (s : WorkerState) (msg : WorkerMsg) :
    WorkerState × List WorkerReply :=
  match msg with
  | .init cfg vs is =>
      let s1 : WorkerState := { wasmLoaded := true, simulator := (freeSimulator s).1.simulator }
      let geom : Option (List Triangle) :=
        match vs, is with
        | some v, some i => some (toTriangles v i)
        | _, _ => none
      ({ s1 with simulator := some { config := cfg, geometry := geom } }, [.ready])
  | .updateEnvironment vs is id =>
      match s.wasmLoaded, s.simulator with
      | true, some sim =>
          ({ s with simulator := some { sim with geometry := some (toTriangles vs is) } },
           [.environmentUpdated id])
      | _, _ => (s, [.error "Simulator not initialised"])
  | .scanMsg pose id =>
      match s.simulator with
      | some sim =>
          let rot := pose.rotation.getD ⟨0, 0, 0, 1⟩
          let hits := performScan sim pose.position rot dirs
          (s, [.scanReply hits ((hits.length : ℚ) / 3) id])
      | none => (s, [.error "Simulator not initialised"])
  | .setConfig cfg =>
      match s.wasmLoaded, s.simulator with
      | true, some sim => ({ s with simulator := some { sim with config := cfg } }, [])
      | _, _ => (s, [.error "Simulator not initialised"])
  | .destroy => ((freeSimulator s).1, [.destroyed])

/-- A packed point buffer has exactly three floats per point. -/
theorem flatMap_triples_length (l : List Vec3) :
    (l.flatMap fun p => [p.x, p.y, p.z]).length = 3 * l.length := by
  induction l with
  | nil => rfl
  | cons p l ih =>
    simp only [List.flatMap_cons, List.length_append, ih, List.length_cons, List.length_nil]
    omega

/-- The modelled scan buffer always holds a whole number of triples. -/
theorem performScan_length_mod (sim : Sim) (origin : Vec3) (q : Quat) (dirs : List Vec3) :
    (performScan sim origin q dirs).length % 3 = 0 := by
  unfold performScan
  rcases sim.geometry with _ | tris
  · rfl
  · rw [flatMap_triples_length]
    exact Nat.mul_mod_right 3 _

/-- C2: every scan reply posted by the worker carries a hits buffer whose
length is divisible by 3 and a `hitCount` equal to `hits.length / 3`
(equivalently `3 · hitCount = hits.length`). -/
theorem scanReply_hitCount (dirs : List Vec3) (s : WorkerState) (msg : WorkerMsg)
    (hits : List ℚ) (hc : ℚ) (id : Option String)
    (hmem : WorkerReply.scanReply hits hc id ∈ (handleMessage dirs s msg).2) :
    hits.length % 3 = 0 ∧ hc = (hits.length : ℚ) / 3 ∧ hc * 3 = (hits.length : ℚ) := by
  have main : hits.length % 3 = 0 ∧ hc = (hits.length : ℚ) / 3 := by
    cases msg with
    | init cfg vs is =>
      simp [handleMessage] at hmem
    | updateEnvironment vs is id' =>
      rcases s with ⟨wl, sim⟩
      cases wl <;> rcases sim with _ | sim <;> simp [handleMessage] at hmem
    | scanMsg pose id' =>
      rcases s with ⟨wl, sim⟩
      rcases sim with _ | sim
      · simp [handleMessage] at hmem
      · simp only [handleMessage, List.mem_singleton, WorkerReply.scanReply.injEq] at hmem
        obtain ⟨h1, h2, h3⟩ := hmem
        subst h1
        exact ⟨performScan_length_mod _ _ _ _, h2⟩
    | setConfig cfg =>
      rcases s with ⟨wl, sim⟩
      cases wl <;> rcases sim with _ | sim <;> simp [handleMessage] at hmem
    | destroy =>
      rcases s with ⟨wl, sim⟩
      rcases sim with _ | sim <;> simp [handleMessage, freeSimulator] at hmem
  refine ⟨main.1, main.2, ?_⟩
  rw [main.2]
  exact div_mul_cancel₀ _ (by norm_num)

/-- C3: scanning with no rotation supplied is, at the worker, literally
the same operation as scanning with the identity quaternion
`(0, 0, 0, 1)` — for every state (hence every scene) and every position. -/
theorem scan_defaults_to_identity (dirs : List Vec3) (s : WorkerState)
    (pos : Vec3) (id : Option String) :
    handleMessage dirs s (.scanMsg ⟨pos, none⟩ id) =
      handleMessage dirs s (.scanMsg ⟨pos, some ⟨0, 0, 0, 1⟩⟩ id) := rfl

/-- C5: before geometry is loaded the (spec-modelled) core scan returns
an empty buffer rather than an error; at the worker, a `scan`,
`updateEnvironment` or `setConfig` message arriving before `init` has
created a simulator is answered by exactly one error reply — in
particular never by a scan reply. -/
theorem notInitialized_behaviour :
    (∀ (cfg : SensorConfig) (origin : Vec3) (q : Quat) (dirs : List Vec3),
      performScan ⟨cfg, none⟩ origin q dirs = []) ∧
    ∀ (dirs : List Vec3) (s : WorkerState), s.simulator = none →
      (∀ pose id, handleMessage dirs s (.scanMsg pose id) =
        (s, [.error "Simulator not initialised"])) ∧
      (∀ vs is id, handleMessage dirs s (.updateEnvironment vs is id) =
        (s, [.error "Simulator not initialised"])) ∧
      (∀ cfg, handleMessage dirs s (.setConfig cfg) =
        (s, [.error "Simulator not initialised"])) := by
  refine ⟨fun cfg origin q dirs => rfl, ?_⟩
  intro dirs s hs
  rcases s with ⟨wl, sim⟩
  simp only at hs
  subst hs
  refine ⟨fun pose id => ?_, fun vs is id => ?_, fun cfg => ?_⟩ <;> cases wl <;> rfl

/-- Witness for C2 at a concrete message: a scan against a simulator with
no geometry replies with the empty buffer and hit count `0`. -/
theorem scanReply_hitCount_witness :
    ([] : List ℚ).length % 3 = 0 ∧ (0 : ℚ) = (([] : List ℚ).length : ℚ) / 3 ∧
      (0 : ℚ) * 3 = (([] : List ℚ).length : ℚ) :=
  scanReply_hitCount [] ⟨true, some ⟨⟨36, 4, -10, -20, 1/10, 20, 0⟩, none⟩⟩
    (.scanMsg ⟨⟨0, 1, 0⟩, none⟩ (some "scan_1")) [] 0 (some "scan_1")
    (by rw [handleMessage]; norm_num [performScan])

/-- Witness for C5 at a concrete uninitialised worker state. -/
theorem notInitialized_behaviour_witness :
    handleMessage [] ⟨false, none⟩ (.scanMsg ⟨⟨0, 0, 0⟩, none⟩ none) =
      (⟨false, none⟩, [.error "Simulator not initialised"]) :=
  ((notInitialized_behaviour.2 [] ⟨false, none⟩ rfl).1 ⟨⟨0, 0, 0⟩, none⟩ none)

/-! ## Client layer (`ts/src/index.ts` `LidarClient`; part_002 `SimLidar`)

JavaScript promises are modelled by their settlement actions: a promise
settles exactly when the client emits a `resolve…`/`reject…` action for
its key.  Map keys are strings of the shapes `"__ready__"`, `"scan_<n>"`
and `"env_<n>"`; they are modelled by constructors, the decimal digits of
`<n>` (`Nat.digits 10 n`) standing for its printed characters — decimal
printing is injective exactly as `Nat.digits 10` is.  `other` stands for
a string of any different shape. -/

/-- A key of a client's `pending` map. -/
inductive CKey where
  | ready
  | scanKey (digits : List ℕ)
  | envKey (digits : List ℕ)
  | other (s : String)
deriving DecidableEq

/-- The key `"scan_<n>"`. -/
def mkScanKey (n : ℕ) : CKey := .scanKey (Nat.digits 10 n)

/-- The key `"env_<n>"`. -/
def mkEnvKey (n : ℕ) : CKey := .envKey (Nat.digits 10 n)

/-- JavaScript `Map.set` on the key set: inserts at the end if absent. -/
def mapSet (l : List CKey) (k : CKey) : List CKey :=
  if k ∈ l then l else l ++ [k]

/-- A promise-settlement (or worker-bound) effect emitted by a client. -/
inductive CAction where
  | resolveReady
  | resolveScan (k : CKey) (hits : List ℚ) (hitCount : ℚ)
  | resolveHits (k : CKey) (hits : List ℚ)
  | resolveEnv (k : CKey)
  | rejectKey (k : CKey) (message : String)
  | postDestroy
deriving DecidableEq

/-- A message delivered to a client's `message` listener. -/
inductive CMsg where
  | ready
  | scanMsg (id : Option CKey) (hits : List ℚ) (hitCount : ℚ)
  | environmentUpdated (id : Option CKey)
  | destroyed
  | errorMsg (message : String)
deriving DecidableEq

/-- State of `LidarClient` (`ts/src/index.ts`): the pending map's keys,
the scan counter, and whether `worker.terminate()` has run. -/
structure LCState where
  pending : List CKey
  scanCounter : ℕ
  terminated : Bool
deriving DecidableEq

/-- `LidarClient._onMessage` (`ts/src/index.ts` lines 89–118): handles
`ready`, `scan` and `error`; other message types fall through. -/
def LidarClient.onMessage (c : LCState) (m : CMsg) : LCState × List CAction :=
  match m with
  | .ready =>
      if CKey.ready ∈ c.pending then
        ({ c with pending := c.pending.erase CKey.ready }, [.resolveReady])
      else (c, [])
  | .scanMsg id hits hc =>
      match id with
      | some k =>
          if k ∈ c.pending then
            ({ c with pending := c.pending.erase k }, [.resolveScan k hits hc])
          else (c, [])
      | none => (c, [])
  | .environmentUpdated _ => (c, [])
  | .destroyed => (c, [])
  | .errorMsg msg =>
      ({ c with pending := [] }, c.pending.map fun k => .rejectKey k msg)

/-- `LidarClient.scan` (`ts/src/index.ts` lines 72–81): increments the
counter, registers `"scan_<counter>"` in the pending map, posts the scan
message.  Returns the new state and the id used. -/
def LidarClient.scan (c : LCState) : LCState × CKey :=
  let n := c.scanCounter + 1
  let k := mkScanKey n
  ({ c with scanCounter := n, pending := mapSet c.pending k }, k)

/-- `LidarClient.dispose` (`ts/src/index.ts` lines 84–87): terminates the
worker and clears the pending map, settling nothing. -/
def LidarClient.dispose (c : LCState) : LCState × List CAction :=
  ({ c with terminated := true, pending := [] }, [])

/-- Delivery of a worker message to the client: a terminated worker
delivers nothing (`Worker.terminate` stops the worker; the test stub's
dispatch likewise drops messages once terminated). -/
def LidarClient.deliver (c : LCState) (m : CMsg) : LCState × List CAction :=
  if c.terminated then (c, []) else LidarClient.onMessage c m

/-- One client-visible event. -/
inductive LCOp where
  | scanOp
  | deliverOp (m : CMsg)
  | disposeOp
deriving DecidableEq

/-- Effect of one event on a `LidarClient`. -/
def LidarClient.step (c : LCState) : LCOp → LCState × List CAction
  | .scanOp => ((LidarClient.scan c).1, [])
  | .deliverOp m => LidarClient.deliver c m
  | .disposeOp => LidarClient.dispose c

/-- All settlement actions emitted along a trace of events. -/
def traceActions (c : LCState) : List LCOp → List CAction
  | [] => []
  | op :: ops =>
      (LidarClient.step c op).2 ++ traceActions (LidarClient.step c op).1 ops

/-- The request ids issued by the `scan()` calls of a trace, in order. -/
def issuedKeys (c : LCState) : List LCOp → List CKey
  | [] => []
  | op :: ops =>
      match op with
      | .scanOp => (LidarClient.scan c).2 :: issuedKeys (LidarClient.scan c).1 ops
      | _ => issuedKeys (LidarClient.step c op).1 ops

/-- State of `SimLidar` (part_002): pending keys, the shared request
counter, the `_disposed` flag, and whether the worker was terminated. -/
structure SLState where
  pending : List CKey
  counter : ℕ
  disposed : Bool
  terminated : Bool
deriving DecidableEq

/-- The `SimLidarDisposedError` message (part_002 / `types.ts`). -/
def disposedMessage : String :=
  "This SimLidar instance has been destroyed and can no longer be used."

/-- `SimLidar._onMessage` (part_002 lines 253–304). -/
def SimLidar.onMessage (c : SLState) (m : CMsg) : SLState × List CAction :=
  match m with
  | .ready =>
      if CKey.ready ∈ c.pending then
        ({ c with pending := c.pending.erase CKey.ready }, [.resolveReady])
      else (c, [])
  | .environmentUpdated id =>
      match id with
      | some k =>
          if k ∈ c.pending then
            ({ c with pending := c.pending.erase k }, [.resolveEnv k])
          else (c, [])
      | none => (c, [])
  | .scanMsg id hits _ =>
      match id with
      | some k =>
          if k ∈ c.pending then
            ({ c with pending := c.pending.erase k }, [.resolveHits k hits])
          else (c, [])
      | none => (c, [])
  | .destroyed => ({ c with terminated := true }, [])
  | .errorMsg msg =>
      ({ c with pending := [] }, c.pending.map fun k => .rejectKey k msg)

/-- `SimLidar.destroy` (part_002 lines 241–251): returns immediately when
already disposed; otherwise rejects all pending promises, clears the map,
and posts the `destroy` message to the worker. -/
def SimLidar.destroy (c : SLState) : SLState × List CAction :=
  if c.disposed then (c, [])
  else
    ({ c with disposed := true, pending := [] },
     (c.pending.map fun k => .rejectKey k disposedMessage) ++ [.postDestroy])

/-- C4: an error message from the worker rejects every in-flight request
promise (the ready promise, environment updates, and all pending scans —
everything in the pending map) with that error and empties the map, in
both `LidarClient._onMessage` and `SimLidar._onMessage`. -/
theorem error_rejects_all_pending :
    (∀ (c : LCState) (msg : String),
      (LidarClient.onMessage c (.errorMsg msg)).1.pending = [] ∧
      (LidarClient.onMessage c (.errorMsg msg)).2 =
        (c.pending.map fun k => .rejectKey k msg) ∧
      ∀ k ∈ c.pending, CAction.rejectKey k msg ∈ (LidarClient.onMessage c (.errorMsg msg)).2) ∧
    ∀ (c : SLState) (msg : String),
      (SimLidar.onMessage c (.errorMsg msg)).1.pending = [] ∧
      (SimLidar.onMessage c (.errorMsg msg)).2 =
        (c.pending.map fun k => .rejectKey k msg) ∧
      ∀ k ∈ c.pending, CAction.rejectKey k msg ∈ (SimLidar.onMessage c (.errorMsg msg)).2 := by
  constructor
  · intro c msg
    refine ⟨rfl, rfl, ?_⟩
    intro k hk
    exact List.mem_map.mpr ⟨k, hk, rfl⟩
  · intro c msg
    refine ⟨rfl, rfl, ?_⟩
    intro k hk
    exact List.mem_map.mpr ⟨k, hk, rfl⟩

/-- Witness for C4 at a concrete client with a ready promise and one
pending scan. -/
theorem error_rejects_all_pending_witness :
    (LidarClient.onMessage ⟨[CKey.ready, CKey.scanKey [1]], 1, false⟩ (.errorMsg "boom")).1.pending
      = [] ∧
    CAction.rejectKey (CKey.scanKey [1]) "boom" ∈
      (LidarClient.onMessage ⟨[CKey.ready, CKey.scanKey [1]], 1, false⟩ (.errorMsg "boom")).2 :=
  ⟨(error_rejects_all_pending.1 ⟨[CKey.ready, CKey.scanKey [1]], 1, false⟩ "boom").1,
   (error_rejects_all_pending.1 ⟨[CKey.ready, CKey.scanKey [1]], 1, false⟩ "boom").2.2
     (CKey.scanKey [1]) (by decide)⟩

/-- C7: freeing is idempotent.  After a `freeSimulator` the next
`freeSimulator` leaves the state unchanged and does not invoke
`Simulator.free()` (boolean `false`); the same holds after a `destroy`
message has been handled; and a second `SimLidar.destroy` returns
immediately, emitting no effect at all. -/
theorem free_idempotent :
    (∀ s : WorkerState, freeSimulator (freeSimulator s).1 = ((freeSimulator s).1, false)) ∧
    (∀ (dirs : List Vec3) (s : WorkerState),
      freeSimulator (handleMessage dirs s .destroy).1 =
        ((handleMessage dirs s .destroy).1, false)) ∧
    ∀ c : SLState, SimLidar.destroy (SimLidar.destroy c).1 = ((SimLidar.destroy c).1, []) := by
  refine ⟨?_, ?_, ?_⟩
  · intro s
    rcases s with ⟨wl, sim⟩
    rcases sim with _ | sim <;> rfl
  · intro dirs s
    rcases s with ⟨wl, sim⟩
    rcases sim with _ | sim <;> rfl
  · intro c
    rcases c with ⟨pending, counter, disposed, terminated⟩
    cases disposed <;> simp [SimLidar.destroy]

/-- After any event the `terminated` flag never resets. -/
theorem step_preserves_terminated (c : LCState) (op : LCOp)
    (h : c.terminated = true) : (LidarClient.step c op).1.terminated = true := by
  cases op with
  | scanOp => exact h
  | deliverOp m => simp [LidarClient.step, LidarClient.deliver, h]
  | disposeOp => rfl

/-- A terminated client emits no settlement action on any single event. -/
theorem step_terminated_no_actions (c : LCState) (op : LCOp)
    (h : c.terminated = true) : (LidarClient.step c op).2 = [] := by
  cases op with
  | scanOp => rfl
  | deliverOp m => simp [LidarClient.step, LidarClient.deliver, h]
  | disposeOp => rfl

/-- C9: `LidarClient.dispose` (identical in `ts/src/index.ts` and
part_003) terminates the worker and clears the pending map while settling
nothing; and once the worker is terminated no later trace of events —
including scans issued after dispose — ever emits a settlement action, so
every promise still in flight at dispose time, and every scan issued
afterwards, is never resolved nor rejected. -/
theorem dispose_never_settles :
    (∀ c : LCState, LidarClient.dispose c = ({ c with terminated := true, pending := [] }, [])) ∧
    ∀ (c : LCState) (ops : List LCOp), c.terminated = true → traceActions c ops = [] := by
  refine ⟨fun c => rfl, ?_⟩
  intro c ops
  induction ops generalizing c with
  | nil => intro _; rfl
  | cons op ops ih =>
    intro h
    rw [traceActions, step_terminated_no_actions c op h, List.nil_append]
    exact ih _ (step_preserves_terminated c op h)

/-- Witness for C9: a disposed client delivers a matching scan reply into
the void — no settlement results. -/
theorem dispose_never_settles_witness :
    traceActions ((LidarClient.dispose ⟨[CKey.scanKey [1]], 1, false⟩).1)
      [.scanOp, .deliverOp (.scanMsg (some (CKey.scanKey [1])) [] 0),
       .deliverOp (.scanMsg (some (CKey.scanKey [2])) [] 0)] = [] :=
  dispose_never_settles.2 ((LidarClient.dispose ⟨[CKey.scanKey [1]], 1, false⟩).1)
    [.scanOp, .deliverOp (.scanMsg (some (CKey.scanKey [1])) [] 0),
     .deliverOp (.scanMsg (some (CKey.scanKey [2])) [] 0)] rfl

/-- Decimal scan ids are injective in the counter. -/
theorem mkScanKey_injective (m n : ℕ) (h : mkScanKey m = mkScanKey n) : m = n := by
  have hd : Nat.digits 10 m = Nat.digits 10 n := by
    unfold mkScanKey at h
    injection h
  exact Nat.digits_inj_iff.mp hd

/-- `_onMessage` never touches the scan counter. -/
theorem onMessage_scanCounter (c : LCState) (m : CMsg) :
    (LidarClient.onMessage c m).1.scanCounter = c.scanCounter := by
  cases m with
  | ready => by_cases h : CKey.ready ∈ c.pending <;> simp [LidarClient.onMessage, h]
  | scanMsg id hits hc =>
    rcases id with _ | k
    · rfl
    · by_cases h : k ∈ c.pending <;> simp [LidarClient.onMessage, h]
  | environmentUpdated id => rfl
  | destroyed => rfl
  | errorMsg msg => rfl

/-- No event other than `scan()` changes the scan counter. -/
theorem step_scanCounter (c : LCState) (op : LCOp) (h : op ≠ .scanOp) :
    (LidarClient.step c op).1.scanCounter = c.scanCounter := by
  cases op with
  | scanOp => exact absurd rfl h
  | deliverOp m =>
    rw [LidarClient.step, LidarClient.deliver]
    by_cases ht : c.terminated <;> simp [ht, onMessage_scanCounter]
  | disposeOp => rfl

/-- Ids issued along a trace all come from counters strictly above the
starting counter, and are pairwise distinct. -/
theorem issuedKeys_spec (ops : List LCOp) (c : LCState) :
    (∀ k ∈ issuedKeys c ops, ∃ m, c.scanCounter < m ∧ k = mkScanKey m) ∧
      (issuedKeys c ops).Nodup := by
  induction ops generalizing c with
  | nil => exact ⟨by simp [issuedKeys], List.nodup_nil⟩
  | cons op ops ih =>
    cases op with
    | scanOp =>
      have hcounter : (LidarClient.scan c).1.scanCounter = c.scanCounter + 1 := rfl
      have hkey : (LidarClient.scan c).2 = mkScanKey (c.scanCounter + 1) := rfl
      have hissued : issuedKeys c (.scanOp :: ops) =
          (LidarClient.scan c).2 :: issuedKeys (LidarClient.scan c).1 ops := rfl
      obtain ⟨ihmem, ihnodup⟩ := ih (LidarClient.scan c).1
      rw [hcounter] at ihmem
      constructor
      · intro k hk
        rw [hissued] at hk
        rcases List.mem_cons.mp hk with hk | hk
        · exact ⟨c.scanCounter + 1, Nat.lt_succ_self _, by rw [hk, hkey]⟩
        · obtain ⟨m, hm, hkm⟩ := ihmem k hk
          exact ⟨m, lt_trans (Nat.lt_succ_self _) hm, hkm⟩
      · rw [hissued]
        refine List.nodup_cons.mpr ⟨?_, ihnodup⟩
        intro hmem
        obtain ⟨m, hm, hkm⟩ := ihmem _ hmem
        rw [hkey] at hkm
        have := mkScanKey_injective _ _ hkm
        omega
    | deliverOp m =>
      have hissued : issuedKeys c (.deliverOp m :: ops) =
          issuedKeys (LidarClient.step c (.deliverOp m)).1 ops := rfl
      obtain ⟨ihmem, ihnodup⟩ := ih (LidarClient.step c (.deliverOp m)).1
      rw [step_scanCounter c (.deliverOp m) (by simp)] at ihmem
      exact ⟨by rw [hissued]; exact ihmem, by rw [hissued]; exact ihnodup⟩
    | disposeOp =>
      have hissued : issuedKeys c (.disposeOp :: ops) =
          issuedKeys (LidarClient.step c .disposeOp).1 ops := rfl
      obtain ⟨ihmem, ihnodup⟩ := ih (LidarClient.step c .disposeOp).1
      rw [step_scanCounter c .disposeOp (by simp)] at ihmem
      exact ⟨by rw [hissued]; exact ihmem, by rw [hissued]; exact ihnodup⟩

/-- C6: every `scan()` registers the fresh id `"scan_<counter+1>"` from a
strictly increasing counter, so ids issued along any trace are pairwise
distinct; a scan reply settles exactly the one pending promise whose id
matches, removing only that entry from the pending map; and a reply with
a missing or unknown id settles nothing. -/
theorem scan_ids_and_correlation :
    (∀ c : LCState, (LidarClient.scan c).1.scanCounter = c.scanCounter + 1 ∧
      (LidarClient.scan c).2 = mkScanKey (c.scanCounter + 1) ∧
      (LidarClient.scan c).1.pending = mapSet c.pending (mkScanKey (c.scanCounter + 1))) ∧
    (∀ m n : ℕ, mkScanKey m = mkScanKey n → m = n) ∧
    (∀ (c : LCState) (ops : List LCOp), (issuedKeys c ops).Nodup) ∧
    ∀ (c : LCState) (k : CKey) (hits : List ℚ) (hc : ℚ),
      (k ∈ c.pending → c.pending.Nodup →
        LidarClient.onMessage c (.scanMsg (some k) hits hc) =
          ({ c with pending := c.pending.erase k }, [.resolveScan k hits hc]) ∧
        k ∉ c.pending.erase k ∧
        ∀ k' ∈ c.pending, k' ≠ k → k' ∈ c.pending.erase k) ∧
      (k ∉ c.pending →
        LidarClient.onMessage c (.scanMsg (some k) hits hc) = (c, [])) ∧
      LidarClient.onMessage c (.scanMsg none hits hc) = (c, []) := by
  refine ⟨fun c => ⟨rfl, rfl, rfl⟩, mkScanKey_injective, fun c ops => (issuedKeys_spec ops c).2,
    ?_⟩
  intro c k hits hc
  refine ⟨fun hk hnd => ⟨?_, ?_, ?_⟩, fun hk => ?_, rfl⟩
  · simp [LidarClient.onMessage, hk]
  · exact hnd.not_mem_erase
  · intro k' hk' hne
    exact (List.mem_erase_of_ne hne).mpr hk'
  · simp [LidarClient.onMessage, hk]

/-- Witness for C6: with `"scan_1"` and `"scan_2"` pending, the reply for
`"scan_2"` settles exactly that entry, leaving `"scan_1"` pending. -/
theorem scan_ids_and_correlation_witness :
    LidarClient.onMessage ⟨[mkScanKey 1, mkScanKey 2], 2, false⟩
        (.scanMsg (some (mkScanKey 2)) [] 0) =
      (⟨[mkScanKey 1, mkScanKey 2].erase (mkScanKey 2), 2, false⟩,
       [.resolveScan (mkScanKey 2) [] 0]) ∧
    mkScanKey 2 ∉ [mkScanKey 1, mkScanKey 2].erase (mkScanKey 2) := by
  have hd1 : Nat.digits 10 1 = [1] := by simp
  have hd2 : Nat.digits 10 2 = [2] := by simp
  have hmem : mkScanKey 2 ∈ [mkScanKey 1, mkScanKey 2] := by
    simp [mkScanKey, hd1, hd2]
  have hnd : ([mkScanKey 1, mkScanKey 2] : List CKey).Nodup := by
    simp [mkScanKey, hd1, hd2]
  have h := (scan_ids_and_correlation.2.2.2 ⟨[mkScanKey 1, mkScanKey 2], 2, false⟩
    (mkScanKey 2) [] 0).1 hmem hnd
  exact ⟨h.1, h.2.1⟩

/-! ## Buffer ownership across `postMessage`

`ArrayBuffer`s live in a heap of buffers addressed by position; a typed
array is its buffer's data plus a `detached` flag.  `postMessage` with a
transfer list detaches exactly the listed buffers in the sender's realm. -/

/-- A JavaScript `ArrayBuffer` as the sender sees it. -/
structure JsBuffer where
  data : List ℚ
  detached : Bool
deriving DecidableEq

/-- The empty, non-detached buffer (used as lookup default). -/
def emptyBuffer : JsBuffer := ⟨[], false⟩

/-- Mark the buffers at the positions in `transfer` as detached, positions
counted from `j`. -/
def markTransferred (transfer : List ℕ) (j : ℕ) : List JsBuffer → List JsBuffer
  | [] => []
  | b :: bs =>
      (if j ∈ transfer then { b with detached := true } else b) ::
        markTransferred transfer (j + 1) bs

/-- Effect of `postMessage(_, transfer)` on the sender's buffer heap. -/
def postTransfer (heap : List JsBuffer) (transfer : List ℕ) : List JsBuffer :=
  markTransferred transfer 0 heap

/-- The buffer-level effect of the `LidarClient` constructor
(`ts/src/index.ts` lines 52–58) and of `SimLidar.updateEnvironment`
(part_002 lines 200–215), which perform the identical operation: copy
the caller's vertex and index arrays into fresh typed arrays
(`new Float32Array(vertices)`, `new Uint32Array(indices)`) appended to
the heap, then post with transfer list `[verticesCopy.buffer,
indicesCopy.buffer]`.  Returns the heap afterwards and the positions of
the two transferred copies. -/
def copyAndTransfer (heap : List JsBuffer) (vIdx iIdx : ℕ) : List JsBuffer × ℕ × ℕ :=
  let vCopy : JsBuffer := { data := (heap.getD vIdx emptyBuffer).data, detached := false }
  let iCopy : JsBuffer := { data := (heap.getD iIdx emptyBuffer).data, detached := false }
  let heap1 := heap ++ [vCopy, iCopy]
  (postTransfer heap1 [heap.length, heap.length + 1], heap.length, heap.length + 1)

theorem markTransferred_append (transfer : List ℕ) (j : ℕ) (l₁ l₂ : List JsBuffer) :
    markTransferred transfer j (l₁ ++ l₂) =
      markTransferred transfer j l₁ ++ markTransferred transfer (j + l₁.length) l₂ := by
  induction l₁ generalizing j with
  | nil => simp [markTransferred]
  | cons b bs ih =>
    simp only [List.cons_append, markTransferred, List.append_eq, ih, List.length_cons]
    have h : j + 1 + bs.length = j + (bs.length + 1) := by omega
    rw [h]

theorem markTransferred_of_ge (transfer : List ℕ) (j : ℕ) (l : List JsBuffer)
    (h : ∀ i ∈ transfer, j + l.length ≤ i) : markTransferred transfer j l = l := by
  induction l generalizing j with
  | nil => rfl
  | cons b bs ih =>
    rw [markTransferred]
    have hj : j ∉ transfer := by
      intro hmem
      have := h j hmem
      simp only [List.length_cons] at this
      omega
    rw [if_neg hj, ih]
    intro i hi
    have := h i hi
    simp only [List.length_cons] at this
    omega

/-- C10: the `LidarClient` constructor and `SimLidar.updateEnvironment`
copy the caller's arrays into fresh typed arrays and transfer only the
copies: afterwards the caller's heap prefix — in particular the original
vertex and index buffers — is byte-for-byte unchanged and not detached,
the two transferred positions are the freshly appended copies, and the
copies carry the originals' data. -/
theorem copyAndTransfer_preserves_caller (heap : List JsBuffer) (vIdx iIdx : ℕ) :
    (copyAndTransfer heap vIdx iIdx).1 =
      heap ++ [⟨(heap.getD vIdx emptyBuffer).data, true⟩,
               ⟨(heap.getD iIdx emptyBuffer).data, true⟩] ∧
    (copyAndTransfer heap vIdx iIdx).1.take heap.length = heap ∧
    heap.length ≤ (copyAndTransfer heap vIdx iIdx).2.1 ∧
    heap.length ≤ (copyAndTransfer heap vIdx iIdx).2.2 := by
  have hmain : (copyAndTransfer heap vIdx iIdx).1 =
      heap ++ [⟨(heap.getD vIdx emptyBuffer).data, true⟩,
               ⟨(heap.getD iIdx emptyBuffer).data, true⟩] := by
    simp only [copyAndTransfer, postTransfer]
    rw [markTransferred_append]
    rw [markTransferred_of_ge _ 0 heap ?_]
    · congr 1
      rw [markTransferred, if_pos (by simp), markTransferred, if_pos (by simp), markTransferred]
    · intro i hi
      simp only [List.mem_cons, List.mem_singleton, List.not_mem_nil, or_false] at hi
      omega
  refine ⟨hmain, ?_, ?_, ?_⟩
  · rw [hmain, List.take_left]
  · exact le_refl _
  · exact Nat.le_succ _

/-! ## Three.js adapter: `extractGeometry` (`ts/src/three.ts`)

A scene node is a mesh payload (present exactly when the source's guards
`obj.isMesh && obj.geometry` and `if (posAttr)` all pass) plus children.
Buffer attributes are flat arrays with a `count` and `itemSize`;
out-of-range reads return the JavaScript `undefined` modelled as the
default `0` — no claim settled here depends on ill-formed attributes. -/

/-- A visited mesh: position attribute (flat array, `count`, `itemSize`),
optional index attribute (array and `count`) and optional column-major
world matrix. -/
structure MeshData where
  position : List ℚ
  posCount : ℕ
  itemSize : ℕ
  indexArr : Option (List ℕ × ℕ)
  matrixWorld : Option (List ℚ)
deriving DecidableEq

/-- A scene-graph node. -/
inductive Object3D where
  | mk (mesh : Option MeshData) (children : List Object3D)

/-- The floats a single mesh appends to `allVertices`
(`ts/src/three.ts` lines 129–148): for each vertex, read `x,y,z` at
stride `itemSize` and, when a `matrixWorld` is present, transform them by
the column-major matrix before pushing. -/
def meshVertices (m : MeshData) : List ℚ :=
  (List.range m.posCount).flatMap fun i =>
    let base := i * m.itemSize
    let x := m.position.getD base 0
    let y := m.position.getD (base + 1) 0
    let z := m.position.getD (base + 2) 0
    match m.matrixWorld with
    | some mw =>
        [mw.getD 0 0 * x + mw.getD 4 0 * y + mw.getD 8 0 * z + mw.getD 12 0,
         mw.getD 1 0 * x + mw.getD 5 0 * y + mw.getD 9 0 * z + mw.getD 13 0,
         mw.getD 2 0 * x + mw.getD 6 0 * y + mw.getD 10 0 * z + mw.getD 14 0]
    | none => [x, y, z]

/-- The indices a single mesh appends to `allIndices`
(`ts/src/three.ts` lines 150–161): the index attribute offset by
`baseVertex`, or sequential indices for a non-indexed geometry. -/
def meshIndices (base : ℕ) (m : MeshData) : List ℕ :=
  match m.indexArr with
  | some (arr, cnt) => (List.range cnt).map fun i => base + arr.getD i 0
  | none => (List.range m.posCount).map fun i => base + i

/-- The mesh-handling body of `visit`: `baseVertex` is the vertex count
accumulated so far (`allVertices.length / 3`). -/
def visitMesh (acc : List ℚ × List ℕ) (mesh : Option MeshData) : List ℚ × List ℕ :=
  match mesh with
  | some m =>
      let base := acc.1.length / 3
      (acc.1 ++ meshVertices m, acc.2 ++ meshIndices base m)
  | none => acc

mutual

/-- The recursive `visit` of `extractGeometry` (`ts/src/three.ts`
lines 121–168), with the two mutated arrays passed as an accumulator. -/
def visit (acc : List ℚ × List ℕ) : Object3D → List ℚ × List ℕ
  | .mk mesh children => visitChildren (visitMesh acc mesh) children

/-- The `for (const child of obj.children) visit(child)` loop. -/
def visitChildren (acc : List ℚ × List ℕ) : List Object3D → List ℚ × List ℕ
  | [] => acc
  | o :: os => visitChildren (visit acc o) os

end

/-- `extractGeometry` (`ts/src/three.ts` lines 117–176): flatten a scene
into one `(vertices, indices)` pair. -/
def extractGeometry (obj : Object3D) : List ℚ × List ℕ := visit ([], []) obj

mutual

/-- The meshes of a scene in the depth-first order `visit` reaches them. -/
def meshes : Object3D → List MeshData
  | .mk m cs => m.toList ++ meshesList cs

/-- Depth-first meshes of a forest. -/
def meshesList : List Object3D → List MeshData
  | [] => []
  | o :: os => meshes o ++ meshesList os

end

/-- Total vertex count contributed by a list of meshes. -/
def totalCount : List MeshData → ℕ
  | [] => 0
  | m :: ms => m.posCount + totalCount ms

/-- The vertex buffer a mesh list should produce: each mesh's transformed
vertices in visit order. -/
def expectedVerts (ms : List MeshData) : List ℚ := (ms.map meshVertices).flatten

/-- The index buffer a mesh list should produce from vertex base `base`:
each mesh's indices offset by the running vertex count. -/
def expectedIdx (base : ℕ) : List MeshData → List ℕ
  | [] => []
  | m :: ms => meshIndices base m ++ expectedIdx (base + m.posCount) ms

theorem flatMap_range_length_three (n : ℕ) (f : ℕ → List ℚ) (hf : ∀ i, (f i).length = 3) :
    ((List.range n).flatMap f).length = 3 * n := by
  induction n with
  | zero => rfl
  | succ n ih =>
    rw [List.range_succ, List.flatMap_append, List.length_append, ih, List.flatMap_cons,
      List.flatMap_nil, List.append_nil, hf]
    ring

/-- Each mesh contributes exactly `3 · count` floats. -/
theorem meshVertices_length (m : MeshData) : (meshVertices m).length = 3 * m.posCount := by
  rcases hmw : m.matrixWorld with _ | mw <;>
    · unfold meshVertices
      rw [hmw]
      exact flatMap_range_length_three _ _ fun i => rfl

theorem expectedVerts_nil : expectedVerts [] = [] := rfl

theorem expectedVerts_cons (m : MeshData) (ms : List MeshData) :
    expectedVerts (m :: ms) = meshVertices m ++ expectedVerts ms := by
  simp [expectedVerts]

theorem expectedVerts_append (ms₁ ms₂ : List MeshData) :
    expectedVerts (ms₁ ++ ms₂) = expectedVerts ms₁ ++ expectedVerts ms₂ := by
  simp [expectedVerts]

theorem expectedVerts_length (ms : List MeshData) :
    (expectedVerts ms).length = 3 * totalCount ms := by
  induction ms with
  | nil => rfl
  | cons m ms ih =>
    rw [expectedVerts_cons, List.length_append, ih, meshVertices_length, totalCount]
    ring

theorem totalCount_append (ms₁ ms₂ : List MeshData) :
    totalCount (ms₁ ++ ms₂) = totalCount ms₁ + totalCount ms₂ := by
  induction ms₁ with
  | nil => simp [totalCount]
  | cons m ms ih =>
    rw [List.cons_append, totalCount, totalCount, ih]
    ring

theorem expectedIdx_append (base : ℕ) (ms₁ ms₂ : List MeshData) :
    expectedIdx base (ms₁ ++ ms₂) =
      expectedIdx base ms₁ ++ expectedIdx (base + totalCount ms₁) ms₂ := by
  induction ms₁ generalizing base with
  | nil => rw [List.nil_append, expectedIdx, List.nil_append, totalCount, Nat.add_zero]
  | cons m ms ih =>
    rw [List.cons_append, expectedIdx, expectedIdx, ih, List.append_assoc, totalCount]
    have h : base + m.posCount + totalCount ms = base + (m.posCount + totalCount ms) := by omega
    rw [h]

mutual

/-- `visit` appends exactly the visited meshes' transformed vertices and
their base-offset indices to the accumulator. -/
theorem visit_eq (acc : List ℚ × List ℕ) (obj : Object3D) (h : 3 ∣ acc.1.length) :
    visit acc obj = (acc.1 ++ expectedVerts (meshes obj),
      acc.2 ++ expectedIdx (acc.1.length / 3) (meshes obj)) := by
  cases obj with
  | mk mesh children =>
    cases mesh with
    | none =>
      rw [visit, visitMesh, visitChildren_eq acc children h, meshes]
      rfl
    | some m =>
      rw [visit, visitMesh]
      have hlen : (acc.1 ++ meshVertices m).length = acc.1.length + 3 * m.posCount := by
        rw [List.length_append, meshVertices_length]
      have hdvd : 3 ∣ (acc.1 ++ meshVertices m).length := by
        rw [hlen]
        exact dvd_add h ⟨m.posCount, rfl⟩
      rw [visitChildren_eq _ children hdvd]
      obtain ⟨k, hk⟩ := h
      have hbase : (acc.1 ++ meshVertices m).length / 3 = acc.1.length / 3 + m.posCount := by
        rw [hlen, hk]
        omega
      rw [hbase, meshes]
      have hm : ((some m).toList ++ meshesList children) = m :: meshesList children := rfl
      rw [hm, expectedVerts_cons, expectedIdx]
      simp [List.append_assoc]

/-- `visitChildren` appends the forest's meshes' contributions in order. -/
theorem visitChildren_eq (acc : List ℚ × List ℕ) (os : List Object3D) (h : 3 ∣ acc.1.length) :
    visitChildren acc os = (acc.1 ++ expectedVerts (meshesList os),
      acc.2 ++ expectedIdx (acc.1.length / 3) (meshesList os)) := by
  cases os with
  | nil =>
    rw [visitChildren, meshesList]
    simp [expectedVerts_nil, expectedIdx]
  | cons o os =>
    rw [visitChildren, visit_eq acc o h]
    have hlen : (acc.1 ++ expectedVerts (meshes o)).length =
        acc.1.length + 3 * totalCount (meshes o) := by
      rw [List.length_append, expectedVerts_length]
    have hdvd : 3 ∣ (acc.1 ++ expectedVerts (meshes o)).length := by
      rw [hlen]
      exact dvd_add h ⟨_, rfl⟩
    rw [visitChildren_eq _ os hdvd]
    obtain ⟨k, hk⟩ := h
    have hbase : (acc.1 ++ expectedVerts (meshes o)).length / 3 =
        acc.1.length / 3 + totalCount (meshes o) := by
      rw [hlen, hk]
      omega
    rw [hbase, meshesList, expectedVerts_append, expectedIdx_append]
    simp [List.append_assoc]

end

/-- Well-formedness of a mesh's index attribute: every used entry points
at one of the mesh's own vertices. -/
def MeshIndexOk (m : MeshData) : Prop :=
  match m.indexArr with
  | some (arr, cnt) => ∀ i < cnt, arr.getD i 0 < m.posCount
  | none => True

/-- A mesh's appended indices land in its own vertex range. -/
theorem meshIndices_own_range (base : ℕ) (m : MeshData) (hok : MeshIndexOk m) :
    ∀ n ∈ meshIndices base m, base ≤ n ∧ n < base + m.posCount := by
  intro n hn
  unfold meshIndices at hn
  unfold MeshIndexOk at hok
  rcases hidx : m.indexArr with _ | ⟨arr, cnt⟩ <;> simp only [hidx] at hn hok
  · obtain ⟨i, hi, rfl⟩ := List.mem_map.mp hn
    have := List.mem_range.mp hi
    omega
  · obtain ⟨i, hi, rfl⟩ := List.mem_map.mp hn
    have h1 := hok i (List.mem_range.mp hi)
    omega

/-- C8: `extractGeometry` flattens the scene into one `(vertices,
indices)` pair: the vertex buffer is each visited mesh's positions,
transformed by its column-major `matrixWorld` when present, appended in
depth-first visit order; each mesh's indices are appended offset by the
vertex base current at its visit (the total vertex count before it); and
under index well-formedness every merged index of a mesh references that
mesh's own appended vertex range (in particular a vertex present in the
merged buffer). -/
theorem extractGeometry_flattens (obj : Object3D) :
    extractGeometry obj = (expectedVerts (meshes obj), expectedIdx 0 (meshes obj)) ∧
    (∀ ms₁ m ms₂, meshes obj = ms₁ ++ m :: ms₂ →
      (extractGeometry obj).2 =
        expectedIdx 0 ms₁ ++ meshIndices (totalCount ms₁) m ++
          expectedIdx (totalCount ms₁ + m.posCount) ms₂) ∧
    ∀ ms₁ m ms₂, meshes obj = ms₁ ++ m :: ms₂ → MeshIndexOk m →
      ∀ n ∈ meshIndices (totalCount ms₁) m,
        totalCount ms₁ ≤ n ∧ n < totalCount ms₁ + m.posCount ∧
        3 * n + 2 < (extractGeometry obj).1.length := by
  have h1 : extractGeometry obj = (expectedVerts (meshes obj), expectedIdx 0 (meshes obj)) := by
    have h := visit_eq ([], []) obj ⟨0, rfl⟩
    simpa [extractGeometry] using h
  refine ⟨h1, ?_, ?_⟩
  · intro ms₁ m ms₂ hdec
    rw [h1]
    show expectedIdx 0 (meshes obj) = _
    rw [hdec, expectedIdx_append, expectedIdx, Nat.zero_add, List.append_assoc]
  · intro ms₁ m ms₂ hdec hok n hn
    have hrange := meshIndices_own_range (totalCount ms₁) m hok n hn
    refine ⟨hrange.1, hrange.2, ?_⟩
    rw [h1]
    show 3 * n + 2 < (expectedVerts (meshes obj)).length
    rw [expectedVerts_length, hdec, totalCount_append, totalCount]
    omega

/-- The demo mesh for the C8 witness: one indexed triangle, no world
matrix. -/
def demoMesh : MeshData :=
  { position := [0, 0, 0, 1, 0, 0, 0, 0, 1], posCount := 3, itemSize := 3,
    indexArr := some ([0, 1, 2], 3), matrixWorld := none }

/-- The demo scene: a single mesh node with no children. -/
def demoScene : Object3D := .mk (some demoMesh) []

/-- Witness for C8: in the demo scene the merged index `2` of the only
mesh references that mesh's own vertex range and an existing vertex. -/
theorem extractGeometry_flattens_witness :
    totalCount [] ≤ 2 ∧ 2 < totalCount [] + demoMesh.posCount ∧
      3 * 2 + 2 < (extractGeometry demoScene).1.length :=
  (extractGeometry_flattens demoScene).2.2 [] demoMesh []
    (by simp [demoScene, meshes, meshesList])
    (by show ∀ i < 3, ([0, 1, 2] : List ℕ).getD i 0 < 3; decide)
    2 (by decide)

end SimLidarRs
